import Mathlib

/-!
Verification of the membership reconciliation server
(OperatorFoundation/memberships) against its specification.

The definitions below are a shallow embedding of the Go sources:
the Zapier webhook variant in db.go together with its HTTP layer
(WebhookServer.webhookHandler, isAuthorized, convertStatus,
convertAnonymous).  The SQL database is modelled as an explicit
store value: a list of member rows, the append-only status_history
log, and the webhook_logs audit table.  Timestamps are modelled as
natural numbers supplied by the caller.
-/

namespace Memberships

/-- ASCII lower-casing of one character, modelling unicode.ToLower as
used by strings.ToLower on the ASCII payloads this system sees. -/
def lowerChar (c : Char) : Char :=
  if 'A' ≤ c ∧ c ≤ 'Z' then Char.ofNat (c.toNat + 32) else c

/-- strings.ToLower, character by character. -/
def lowerStr (s : String) : String :=
  String.mk (s.data.map lowerChar)

/-- ASCII whitespace test, modelling unicode.IsSpace as used by
strings.TrimSpace on the ASCII payloads this system sees. -/
def isSpaceChar (c : Char) : Bool :=
  c == ' ' || c == '\t' || c == '\n' || c == '\r'

/-- Removal of leading whitespace from a character list. -/
def dropLeadingSpace : List Char → List Char
  | [] => []
  | c :: rest => if isSpaceChar c then dropLeadingSpace rest else c :: rest

/-- strings.TrimSpace on a character list: leading and trailing
whitespace removed. -/
def trimChars (l : List Char) : List Char :=
  (dropLeadingSpace (dropLeadingSpace l.reverse).reverse)

/-- Substring test on character lists, modelling Go strings.Contains:
startsWithChars pat s is true when pat is a prefix of s. -/
def startsWithChars : List Char → List Char → Bool
  | [], _ => true
  | _ :: _, [] => false
  | p :: ps, c :: cs => p == c && startsWithChars ps cs

/-- containsChars s pat is true when pat occurs as a contiguous
substring of s (Go strings.Contains). -/
def containsChars : List Char → List Char → Bool
  | [], pat => pat.isEmpty
  | c :: rest, pat => startsWithChars pat (c :: rest) || containsChars rest pat

/-- String-level substring containment, modelling Go strings.Contains. -/
def strContains (s pat : String) : Bool :=
  containsChars s.data pat.data

/-- Email normalization used throughout db.go:
strings.ToLower(strings.TrimSpace(email)). -/
def normalizeEmail (email : String) : String :=
  String.mk ((trimChars email.data).map lowerChar)

/-- convertStatus from the webhook server: maps the free-text Zapier
payment status to the canonical membership status by case-insensitive
substring matching, first match winning; anything unmatched defaults
to active. -/
def convertStatus (zapierStatus : String) : String :=
  let statusLower := lowerStr zapierStatus
  if strContains statusLower "succeed" || strContains statusLower "success" ||
      strContains statusLower "active" then
    "active"
  else if strContains statusLower "fail" || strContains statusLower "cancel" ||
      strContains statusLower "refund" then
    "cancelled"
  else if strContains statusLower "suspend" || strContains statusLower "pend" then
    "suspended"
  else
    "active"

/-- convertAnonymous from the webhook server: the free-text anonymous
flag is true exactly for "true", "yes" or "1" after trimming and
lower-casing. -/
def convertAnonymous (anonStr : String) : Bool :=
  let anonLower := String.mk ((trimChars anonStr.data).map lowerChar)
  anonLower == "true" || anonLower == "yes" || anonLower == "1"

/-- One row of the members table.  The name column is nullable in the
schema, hence Option String.  first_seen and last_updated carry the
abstract timestamps CURRENT_DATE / CURRENT_TIMESTAMP. -/
structure MemberRow where
  id : Nat
  email : String
  name : Option String
  is_anonymous : Bool
  status : String
  first_seen : Nat
  last_updated : Nat
deriving DecidableEq, Repr

/-- The persistent state touched by the webhook variant: the members
table, the append-only status_history table (member_id, status), the
webhook_logs audit table (email, status), and the id sequence. -/
structure Store where
  members : List MemberRow
  history : List (Nat × String)
  logs : List (String × String)
  nextId : Nat
deriving DecidableEq, Repr

/-- The empty database, with the id sequence starting at 1. -/
def store0 : Store := ⟨[], [], [], 1⟩

/-- SELECT id, status FROM members WHERE email = $1 — the lookup used
by ProcessMember (email is already normalized by the caller). -/
def findMember (s : Store) (email : String) : Option MemberRow :=
  s.members.find? (fun m => m.email == email)

/-- The row written by the UPDATE members SET step for an existing
member m: the SQL CASE keeps the old name when the event is anonymous
or the incoming name is empty, the anonymity flag and the status are
always overwritten, and last_updated is refreshed. -/
def updatedRow (m : MemberRow) (name : String) (isAnonymous : Bool)
    (status : String) (now : Nat) : MemberRow :=
  { m with
    name := if isAnonymous then m.name
            else if name = "" then m.name
            else some name,
    is_anonymous := isAnonymous,
    status := status,
    last_updated := now }

/-- ProcessMember from db.go: normalize the email, reject an empty
one, blank the name for anonymous events, then create the member (and
append the initial status to history) or update it in place, appending
to history only when the status changed.  now is the current
timestamp. -/
def ProcessMember (s : Store) (email name : String) (isAnonymous : Bool)
    (status : String) (now : Nat) : Except String Store :=
  let email := normalizeEmail email
  if email = "" then
    Except.error "email is required"
  else
    let name := if isAnonymous then "" else name
    match findMember s email with
    | none =>
        let m : MemberRow :=
          ⟨s.nextId, email, some name, isAnonymous, status, now, now⟩
        Except.ok { s with
          members := s.members ++ [m],
          history := s.history ++ [(s.nextId, status)],
          nextId := s.nextId + 1 }
    | some m =>
        let hist :=
          if m.status != status then s.history ++ [(m.id, status)]
          else s.history
        Except.ok { s with
          members := s.members.map
            (fun x => if x.id = m.id then updatedRow m name isAnonymous status now else x),
          history := hist }

/-- LogWebhook from db.go: best-effort append of (email, status) to
the webhook_logs table. -/
def LogWebhook (s : Store) (email status : String) : Store :=
  { s with logs := s.logs ++ [(email, status)] }

/-- One webhook event after conversion of its free-text fields, used
to describe sequences of processed events. -/
structure Event where
  email : String
  name : String
  isAnonymous : Bool
  status : String
  time : Nat
deriving DecidableEq, Repr

/-- Processing of a sequence of events, as the server does: each event
is handed to ProcessMember; a failed event leaves the store unchanged
(the handler logs the error and carries on). -/
def runEvents : Store → List Event → Store
  | s, [] => s
  | s, e :: rest =>
    match ProcessMember s e.email e.name e.isAnonymous e.status e.time with
    | Except.ok s2 => runEvents s2 rest
    | Except.error _ => runEvents s rest

/-- The parsed JSON body of a Zapier webhook (MemberWebhook in
models.go): all four fields arrive as free-text strings. -/
structure MemberWebhook where
  email : String
  name : String
  status : String
  anonymous : String
deriving DecidableEq, Repr

/-- The parts of an HTTP request that the webhook handler inspects.
body is none when reading or JSON-decoding the body fails, otherwise
the parsed MemberWebhook. -/
structure Request where
  method : String
  authorization : String
  xWebhookSecret : String
  body : Option MemberWebhook
deriving DecidableEq, Repr

/-- The HTTP status codes the webhook handler can answer with. -/
inductive HttpResponse where
  | ok
  | badRequest
  | unauthorized
  | methodNotAllowed
deriving DecidableEq, Repr

/-- Value of one base64 alphabet character (RFC 4648 standard
alphabet), none for a character outside the alphabet. -/
def base64Index (c : Char) : Option Nat :=
  if 'A' ≤ c ∧ c ≤ 'Z' then some (c.toNat - 65)
  else if 'a' ≤ c ∧ c ≤ 'z' then some (c.toNat - 97 + 26)
  else if '0' ≤ c ∧ c ≤ '9' then some (c.toNat - 48 + 52)
  else if c = '+' then some 62
  else if c = '/' then some 63
  else none

/-- Standard base64 decoding of quadruples into bytes, modelling Go
base64.StdEncoding.DecodeString with its error ignored as the caller
does: on malformed input the quadruples decoded before the error are
returned. -/
def b64DecodeChars : List Char → List Nat
  | c1 :: c2 :: c3 :: c4 :: rest =>
    match base64Index c1, base64Index c2 with
    | some a, some b =>
      if c3 = '=' then
        if c4 = '=' ∧ rest = [] then [a * 4 + b / 16] else []
      else
        match base64Index c3 with
        | some c =>
          if c4 = '=' then
            if rest = [] then [a * 4 + b / 16, (b % 16) * 16 + c / 4] else []
          else
            match base64Index c4 with
            | some d =>
                (a * 4 + b / 16) :: ((b % 16) * 16 + c / 4) ::
                  ((c % 4) * 64 + d) :: b64DecodeChars rest
            | none => []
        | none => []
    | _, _ => []
  | _ => []

/-- The decoded payload of a Basic authorization header: the part
after "Basic " run through base64 decoding, bytes read back as
characters. -/
def basicPayload (authHeader : String) : List Char :=
  (b64DecodeChars (authHeader.data.drop 6)).map Char.ofNat

/-- strings.SplitN(s, ":", 2) restricted to the case the caller
accepts (len(parts) == 2): the part before the first colon and the
part after it, or none when the payload has no colon. -/
def splitN2Colon : List Char → Option (List Char × List Char)
  | [] => none
  | c :: rest =>
    if c = ':' then some ([], rest)
    else
      match splitN2Colon rest with
      | some (u, p) => some (c :: u, p)
      | none => none

/-- isAuthorized from the webhook server: a request is authorized by
an exact Bearer match, by Basic credentials whose decoded password or
username equals the shared secret, or by the X-Webhook-Secret
header. -/
def isAuthorized (secret : String) (r : Request) : Bool :=
  if r.authorization == "Bearer " ++ secret then true
  else
    (if startsWithChars "Basic ".data r.authorization.data then
       match splitN2Colon (basicPayload r.authorization) with
       | some (u, p) => String.mk p == secret || String.mk u == secret
       | none => false
     else false)
    || r.xWebhookSecret == secret

/-- The authorization policy as the spec words it: a bearer token, or
HTTP Basic credentials carrying the shared secret in the username or
the password slot, or the custom secret header — any one of the three
authorizes the request. -/
def authorizedSpec (secret : String) (r : Request) : Prop :=
  r.authorization = "Bearer " ++ secret ∨
  (startsWithChars "Basic ".data r.authorization.data = true ∧
    ∃ u p, splitN2Colon (basicPayload r.authorization) = some (u, p) ∧
      (String.mk u = secret ∨ String.mk p = secret)) ∨
  r.xWebhookSecret = secret

/-- webhookHandler from the webhook server: reject non-POST, reject
unauthorized, reject an unreadable or non-JSON body, otherwise convert
the free-text fields, log the webhook, hand the event to
ProcessMember, and answer 200 OK whether or not ProcessMember
succeeded. -/
def webhookHandler (secret : String) (s : Store) (r : Request) (now : Nat) :
    HttpResponse × Store :=
  if r.method != "POST" then (HttpResponse.methodNotAllowed, s)
  else if !(isAuthorized secret r) then (HttpResponse.unauthorized, s)
  else
    match r.body with
    | none => (HttpResponse.badRequest, s)
    | some w =>
        let status := convertStatus w.status
        let isAnon := convertAnonymous w.anonymous
        let s1 := LogWebhook s w.email status
        match ProcessMember s1 w.email w.name isAnon status now with
        | Except.ok s2 => (HttpResponse.ok, s2)
        | Except.error _ => (HttpResponse.ok, s1)

/-- One record of the /members listing: the name key is present in the
emitted JSON object only when the row is not anonymous and the stored
name is non-NULL. -/
structure MemberView where
  email : String
  status : String
  is_anonymous : Bool
  name : Option String
deriving DecidableEq, Repr

/-- Projection of a members row to its listing record, as built in
GetMembers: the name key is set only when !is_anonymous and the
NullString is valid. -/
def rowToView (m : MemberRow) : MemberView :=
  { email := m.email, status := m.status, is_anonymous := m.is_anonymous,
    name := if !m.is_anonymous && m.name.isSome then m.name else none }

/-- Insertion into a list sorted by descending last_updated, used to
model ORDER BY last_updated DESC. -/
def insertDesc (m : MemberRow) : List MemberRow → List MemberRow
  | [] => [m]
  | x :: xs =>
      if x.last_updated ≤ m.last_updated then m :: x :: xs
      else x :: insertDesc m xs

/-- Sorting by descending last_updated (ORDER BY last_updated DESC). -/
def sortDesc : List MemberRow → List MemberRow
  | [] => []
  | x :: xs => insertDesc x (sortDesc xs)

/-- GetMembers from db.go: optional status filter, newest-updated
first, capped at limit rows, each row projected to its listing
record. -/
def GetMembers (s : Store) (statusFilter : String) (limit : Nat) :
    List MemberView :=
  let rows :=
    if statusFilter == "" then s.members
    else s.members.filter (fun m => m.status == statusFilter)
  ((sortDesc rows).take limit).map rowToView

/-- Go map insertion (last write wins) on an association list with
distinct keys. -/
def mapInsert (l : List (String × String)) (k v : String) :
    List (String × String) :=
  if l.any (fun p => p.1 == k) then
    l.map (fun p => if p.1 == k then (k, v) else p)
  else l ++ [(k, v)]

/-- GetAllMemberStatuses from db.go: the email -> status projection of
the members table, keyed by the lower-cased email, built as a Go map
(a later row with the same key overwrites an earlier one). -/
def GetAllMemberStatuses (s : Store) : List (String × String) :=
  s.members.foldl (fun acc m => mapInsert acc (lowerStr m.email) m.status) []

/-- Lookup in the email -> status projection. -/
def lookupStatus (stored : List (String × String)) (e : String) :
    Option String :=
  (stored.find? (fun p => p.1 == e)).map (fun p => p.2)

/-- Modelled from the spec: the CSV batch reconciler
(reconcile_snapshot of section 4.3) is not among the provided source
files; only its store projection GetAllMemberStatuses is.  Following
the words of the spec: an email present in activeSet but absent from
the store is staged for creation; an email present in activeSet but
stored with a non-active status is staged for activation; an email
absent from activeSet but stored as active is staged for deactivation;
matching members are untouched. -/
def reconcileSnapshot (stored : List (String × String))
    (activeSet : List String) :
    List String × List String × List String :=
  let toAdd := activeSet.filter (fun e => (lookupStatus stored e).isNone)
  let toActivate := activeSet.filter (fun e =>
    match lookupStatus stored e with
    | some st => st != "active"
    | none => false)
  let toDeactivate :=
    (stored.filter (fun p => p.2 == "active" && !(activeSet.contains p.1))).map
      (fun p => p.1)
  (toAdd, toActivate, toDeactivate)

/-- The emails an unchanged snapshot would list as active: exactly the
keys of the projection whose status is active. -/
def activeProjection (s : Store) : List String :=
  ((GetAllMemberStatuses s).filter (fun p => p.2 == "active")).map
    (fun p => p.1)

/-! ### Supporting lemmas about the store -/

/-- find? over an append whose left part has no match. -/
theorem find?_append_of_none {α : Type} {l1 l2 : List α} {p : α → Bool}
    (h : l1.find? p = none) : (l1 ++ l2).find? p = l2.find? p := by
  induction l1 with
  | nil => rfl
  | cons a t ih =>
    by_cases ha : p a = true
    · rw [List.find?_cons_of_pos _ ha] at h
      cases h
    · have ha' : ¬ p a := by simp [ha]
      rw [List.find?_cons_of_neg _ ha'] at h
      rw [List.cons_append, List.find?_cons_of_neg _ ha']
      exact ih h

/-- The UPDATE ... WHERE id = $4 step seen through find?: when the
lookup finds m and the replacement row still satisfies the lookup
predicate, the lookup on the updated list finds the replacement
row. -/
theorem find?_map_update {l : List MemberRow} {p : MemberRow → Bool}
    {m m2 : MemberRow}
    (hfind : l.find? p = some m)
    (hm2 : p m2 = true) :
    (l.map (fun x => if x.id = m.id then m2 else x)).find? p = some m2 := by
  induction l with
  | nil => cases hfind
  | cons a t ih =>
    by_cases ha : p a = true
    · rw [List.find?_cons_of_pos _ ha] at hfind
      injection hfind with hma
      have hid : a.id = m.id := by rw [hma]
      simp only [List.map_cons, if_pos hid]
      rw [List.find?_cons_of_pos _ hm2]
    · rw [List.find?_cons_of_neg _ ha] at hfind
      by_cases hid : a.id = m.id
      · simp only [List.map_cons, if_pos hid]
        rw [List.find?_cons_of_pos _ hm2]
      · simp only [List.map_cons, if_neg hid]
        rw [List.find?_cons_of_neg _ ha]
        exact ih hfind

/-- ProcessMember on an empty normalized email: the validation
error, before any write. -/
theorem ProcessMember_eq_error (s : Store) (e n : String) (a : Bool)
    (st : String) (t : Nat) (he : normalizeEmail e = "") :
    ProcessMember s e n a st t = Except.error "email is required" := by
  simp only [ProcessMember, if_pos he]

/-- ProcessMember on an unseen email: the member is created and its
initial status appended to history. -/
theorem ProcessMember_eq_create (s : Store) (e n : String) (a : Bool)
    (st : String) (t : Nat)
    (he : ¬ normalizeEmail e = "")
    (hf : findMember s (normalizeEmail e) = none) :
    ProcessMember s e n a st t = Except.ok
      { s with
        members := s.members ++
          [⟨s.nextId, normalizeEmail e, some (if a then "" else n), a, st, t, t⟩],
        history := s.history ++ [(s.nextId, st)],
        nextId := s.nextId + 1 } := by
  simp only [ProcessMember, if_neg he, hf]

/-- ProcessMember on an existing member: the row is updated in place
and history is appended only when the status changed. -/
theorem ProcessMember_eq_update (s : Store) (e n : String) (a : Bool)
    (st : String) (t : Nat) (m : MemberRow)
    (he : ¬ normalizeEmail e = "")
    (hf : findMember s (normalizeEmail e) = some m) :
    ProcessMember s e n a st t = Except.ok
      { s with
        members := s.members.map
          (fun x => if x.id = m.id then updatedRow m (if a then "" else n) a st t else x),
        history := if m.status != st then s.history ++ [(m.id, st)] else s.history } := by
  simp only [ProcessMember, if_neg he, hf]

/-- After a successful ProcessMember, the member at the normalized
email exists and carries the status of the event. -/
theorem ProcessMember_status_after
    (s : Store) (e n : String) (a : Bool) (st : String) (t : Nat) (s2 : Store)
    (hok : ProcessMember s e n a st t = Except.ok s2) :
    (findMember s2 (normalizeEmail e)).map MemberRow.status = some st := by
  by_cases he : normalizeEmail e = ""
  · rw [ProcessMember_eq_error s e n a st t he] at hok
    cases hok
  · cases hf : findMember s (normalizeEmail e) with
    | none =>
        rw [ProcessMember_eq_create s e n a st t he hf] at hok
        injection hok with hok
        subst hok
        simp only [findMember]
        rw [find?_append_of_none hf]
        simp [List.find?]
    | some m =>
        rw [ProcessMember_eq_update s e n a st t m he hf] at hok
        injection hok with hok
        subst hok
        have hmp : s.members.find? (fun x => x.email == normalizeEmail e)
            = some m := hf
        have hme := List.find?_some hmp
        have hm2 : (fun x => x.email == normalizeEmail e)
            (updatedRow m (if a then "" else n) a st t) = true := hme
        simp only [findMember]
        rw [find?_map_update hmp hm2]
        rw [Option.map_some']
        rfl

/-- Membership through descending insertion. -/
theorem mem_insertDesc {x m : MemberRow} {l : List MemberRow}
    (h : x ∈ insertDesc m l) : x = m ∨ x ∈ l := by
  induction l with
  | nil => simpa [insertDesc] using h
  | cons a t ih =>
    simp only [insertDesc] at h
    by_cases hc : a.last_updated ≤ m.last_updated
    · rw [if_pos hc] at h
      rcases List.mem_cons.mp h with h1 | h1
      · exact Or.inl h1
      · exact Or.inr h1
    · rw [if_neg hc] at h
      rcases List.mem_cons.mp h with h1 | h1
      · exact Or.inr (List.mem_cons.mpr (Or.inl h1))
      · rcases ih h1 with h2 | h2
        · exact Or.inl h2
        · exact Or.inr (List.mem_cons.mpr (Or.inr h2))

/-- Sorting by last_updated does not invent rows. -/
theorem mem_sortDesc {x : MemberRow} {l : List MemberRow}
    (h : x ∈ sortDesc l) : x ∈ l := by
  induction l with
  | nil => exact h
  | cons a t ih =>
    simp only [sortDesc] at h
    rcases mem_insertDesc h with h1 | h1
    · rw [h1]
      exact List.mem_cons_self a t
    · exact List.mem_cons.mpr (Or.inr (ih h1))

/-- Go map insertion keeps the keys pairwise distinct. -/
theorem mapInsert_pairwise {l : List (String × String)} {k v : String}
    (h : l.Pairwise (fun p q => p.1 ≠ q.1)) :
    (mapInsert l k v).Pairwise (fun p q => p.1 ≠ q.1) := by
  unfold mapInsert
  by_cases hc : (l.any (fun p => p.1 == k)) = true
  · rw [if_pos hc]
    refine List.pairwise_map.mpr (h.imp ?_)
    intro a b hab
    by_cases ha2 : (a.1 == k) = true
    · have ha3 : a.1 = k := by simpa using ha2
      by_cases hb2 : (b.1 == k) = true
      · have hb3 : b.1 = k := by simpa using hb2
        exact absurd (ha3.trans hb3.symm) hab
      · simp only [if_pos ha2, if_neg hb2]
        have hb3 : ¬ b.1 = k := by simpa using hb2
        exact fun hk => hb3 (hk.symm ▸ rfl)
    · by_cases hb2 : (b.1 == k) = true
      · simp only [if_neg ha2, if_pos hb2]
        have ha3 : ¬ a.1 = k := by simpa using ha2
        exact ha3
      · simp only [if_neg ha2, if_neg hb2]
        exact hab
  · rw [if_neg hc]
    rw [List.pairwise_append]
    refine ⟨h, List.pairwise_singleton _ _, ?_⟩
    intro a ha b hb
    have hb2 : b = (k, v) := by simpa using hb
    subst hb2
    intro hak
    exact hc (List.any_eq_true.mpr ⟨a, ha, by simp [hak]⟩)

/-- The projection built by GetAllMemberStatuses has pairwise
distinct keys, as any Go map does. -/
theorem GetAllMemberStatuses_pairwise (s : Store) :
    (GetAllMemberStatuses s).Pairwise (fun p q => p.1 ≠ q.1) := by
  unfold GetAllMemberStatuses
  have hgen : ∀ (ms : List MemberRow) (acc : List (String × String)),
      acc.Pairwise (fun p q => p.1 ≠ q.1) →
      (ms.foldl (fun acc m => mapInsert acc (lowerStr m.email) m.status)
          acc).Pairwise (fun p q => p.1 ≠ q.1) := by
    intro ms
    induction ms with
    | nil => intro acc h; simpa using h
    | cons a t ih =>
        intro acc h
        simp only [List.foldl_cons]
        exact ih _ (mapInsert_pairwise h)
  exact hgen s.members [] List.Pairwise.nil

/-- On a projection with pairwise distinct keys, find? returns the
unique entry of a present key. -/
theorem find?_of_pairwise_mem {l : List (String × String)} {k v : String}
    (hw : l.Pairwise (fun p q => p.1 ≠ q.1))
    (hm : (k, v) ∈ l) :
    l.find? (fun p => p.1 == k) = some (k, v) := by
  induction l with
  | nil => cases hm
  | cons a t ih =>
      have hw2 := List.pairwise_cons.mp hw
      rcases List.mem_cons.mp hm with h | h
      · rw [← h]
        simp [List.find?]
      · have hne : ¬ a.1 = k := by
          have h3 := hw2.1 (k, v) h
          simpa using h3
        have hpa : (a.1 == k) = false := by simp [hne]
        simp only [List.find?, hpa]
        exact ih hw2.2 h

/-! ### Theorems -/

/-- C6: for an existing member, ProcessMember leaves the stored name
unchanged when the event is anonymous or its incoming name is empty
(anonymity checked first), and overwrites it only for a non-anonymous
event with a non-empty name. -/
theorem ProcessMember_name_rule
    (s : Store) (e n : String) (a : Bool) (st : String) (t : Nat)
    (s2 : Store) (m : MemberRow)
    (hfind : findMember s (normalizeEmail e) = some m)
    (hok : ProcessMember s e n a st t = Except.ok s2) :
    (findMember s2 (normalizeEmail e)).map MemberRow.name =
      some (if a = true then m.name else if n = "" then m.name else some n) := by
  by_cases he : normalizeEmail e = ""
  · rw [ProcessMember_eq_error s e n a st t he] at hok
    cases hok
  · rw [ProcessMember_eq_update s e n a st t m he hfind] at hok
    injection hok with hok
    subst hok
    have hmp : s.members.find? (fun x => x.email == normalizeEmail e) = some m :=
      hfind
    have hme := List.find?_some hmp
    have hm2 : (fun x => x.email == normalizeEmail e)
        (updatedRow m (if a then "" else n) a st t) = true := hme
    simp only [findMember]
    rw [find?_map_update hmp hm2]
    rw [Option.map_some']
    cases a with
    | true => simp [updatedRow]
    | false =>
        by_cases hn : n = ""
        · simp [updatedRow, hn]
        · simp [updatedRow, hn]

/-- C3: for a valid email, two successive events with the same status
append exactly one history entry in total (one for the creation or the
first transition, none for the repetition), and in general no history
entry is written when the stored status already equals the incoming
one. -/
theorem history_once_on_repeat :
    (∀ (s : Store) (e n1 n2 : String) (a1 a2 : Bool) (A : String)
        (t1 t2 : Nat) (s1 s2 : Store),
        normalizeEmail e ≠ "" →
        (∀ m, findMember s (normalizeEmail e) = some m → m.status ≠ A) →
        ProcessMember s e n1 a1 A t1 = Except.ok s1 →
        ProcessMember s1 e n2 a2 A t2 = Except.ok s2 →
        s2.history.length = s.history.length + 1) ∧
    (∀ (s : Store) (e n : String) (a : Bool) (A : String) (t : Nat)
        (s3 : Store) (m : MemberRow),
        findMember s (normalizeEmail e) = some m → m.status = A →
        ProcessMember s e n a A t = Except.ok s3 →
        s3.history = s.history) := by
  constructor
  · intro s e n1 n2 a1 a2 A t1 t2 s1 s2 hne hdiff h1 h2
    have hstat := ProcessMember_status_after s e n1 a1 A t1 s1 h1
    have hlen : s1.history.length = s.history.length + 1 := by
      cases hf : findMember s (normalizeEmail e) with
      | none =>
          rw [ProcessMember_eq_create s e n1 a1 A t1 hne hf] at h1
          injection h1 with h1
          subst h1
          simp
      | some m =>
          have hm : m.status ≠ A := hdiff m hf
          rw [ProcessMember_eq_update s e n1 a1 A t1 m hne hf] at h1
          injection h1 with h1
          subst h1
          have hb : (m.status != A) = true := bne_iff_ne.mpr hm
          simp [hb]
    cases hf1 : findMember s1 (normalizeEmail e) with
    | none =>
        rw [hf1] at hstat
        cases hstat
    | some m1 =>
        rw [hf1, Option.map_some'] at hstat
        injection hstat with hstat
        rw [ProcessMember_eq_update s1 e n2 a2 A t2 m1 hne hf1] at h2
        injection h2 with h2
        subst h2
        simp [hstat]
        exact hlen
  · intro s e n a A t s3 m hf hst hok
    by_cases he : normalizeEmail e = ""
    · rw [ProcessMember_eq_error s e n a A t he] at hok
      cases hok
    · rw [ProcessMember_eq_update s e n a A t m he hf] at hok
      injection hok with hok
      subst hok
      simp [hst]

/-- Witness for C3: creating a member and repeating its status leaves
exactly one history entry; a repeated status on an existing member
appends nothing. -/
theorem history_once_on_repeat_witness :
    (Store.mk [MemberRow.mk 1 "a@b.com" (some "J2") false "active" 0 1]
        [(1, "active")] [] 2).history.length
      = store0.history.length + 1 ∧
    (Store.mk [MemberRow.mk 1 "a@b.com" (some "Jane") false "active" 0 3]
        [] [] 2).history
      = (Store.mk [MemberRow.mk 1 "a@b.com" (some "Jane") false "active" 0 0]
          [] [] 2).history :=
  ⟨history_once_on_repeat.1 store0 "a@b.com" "Jane" "J2" false false "active"
      0 1
      (Store.mk [MemberRow.mk 1 "a@b.com" (some "Jane") false "active" 0 0]
        [(1, "active")] [] 2)
      (Store.mk [MemberRow.mk 1 "a@b.com" (some "J2") false "active" 0 1]
        [(1, "active")] [] 2)
      (by decide)
      (fun m hm => by simp [findMember, store0] at hm)
      (by rfl) (by rfl),
   history_once_on_repeat.2
      (Store.mk [MemberRow.mk 1 "a@b.com" (some "Jane") false "active" 0 0]
        [] [] 2)
      "a@b.com" "" false "active" 3
      (Store.mk [MemberRow.mk 1 "a@b.com" (some "Jane") false "active" 0 3]
        [] [] 2)
      (MemberRow.mk 1 "a@b.com" (some "Jane") false "active" 0 0)
      (by decide) (by decide) (by rfl)⟩

/-- Witness for C6: an anonymous update carrying the name Evil leaves
the stored name Jane in place. -/
theorem ProcessMember_name_rule_witness :
    (findMember
        (Store.mk
          [MemberRow.mk 1 "a@b.com" (some "Jane") true "cancelled" 0 5]
          [(1, "cancelled")] [] 2)
        (normalizeEmail "a@b.com")).map MemberRow.name =
      some (if true = true then some "Jane"
            else if "Evil" = "" then some "Jane" else some "Evil") :=
  ProcessMember_name_rule
    (Store.mk [MemberRow.mk 1 "a@b.com" (some "Jane") false "active" 0 0]
      [] [] 2)
    "a@b.com" "Evil" true "cancelled" 5
    (Store.mk [MemberRow.mk 1 "a@b.com" (some "Jane") true "cancelled" 0 5]
      [(1, "cancelled")] [] 2)
    (MemberRow.mk 1 "a@b.com" (some "Jane") false "active" 0 0)
    (by decide) (by rfl)

/-- C1: the claimed invariant (an anonymous member row never stores a
display name) fails: a member created with a name by a non-anonymous
event and then updated by an anonymous event keeps the stored name
while its is_anonymous flag becomes true. -/
theorem anonymous_no_name_invariant_cex :
    ¬ (∀ m ∈ (runEvents store0
          [Event.mk "A@B.com " "Jane" false "active" 0,
           Event.mk "a@b.com" "" true "active" 1]).members,
        m.is_anonymous = true → (m.name = some "" ∨ m.name = none)) := by
  decide

/-- C1 (amended): an anonymous event never stores a new display name:
a member created by it has the empty name, and a member updated by it
keeps a name that was already stored before the event. -/
theorem anonymous_event_writes_no_name
    (s : Store) (e n st : String) (t : Nat) (s2 : Store)
    (hok : ProcessMember s e n true st t = Except.ok s2) :
    ∀ m2 ∈ s2.members,
      m2.name = some "" ∨ m2.name ∈ s.members.map MemberRow.name := by
  by_cases he : normalizeEmail e = ""
  · rw [ProcessMember_eq_error s e n true st t he] at hok
    cases hok
  · cases hf : findMember s (normalizeEmail e) with
    | none =>
        rw [ProcessMember_eq_create s e n true st t he hf] at hok
        injection hok with hok
        subst hok
        intro m2 hm2
        rcases List.mem_append.mp hm2 with h | h
        · right
          exact List.mem_map.mpr ⟨m2, h, rfl⟩
        · left
          have hm2eq : m2 =
              (⟨s.nextId, normalizeEmail e, some (if true then "" else n),
                true, st, t, t⟩ : MemberRow) := by
            simpa using h
          rw [hm2eq]
          simp
    | some m =>
        rw [ProcessMember_eq_update s e n true st t m he hf] at hok
        injection hok with hok
        subst hok
        intro m2 hm2
        rcases List.mem_map.mp hm2 with ⟨x, hx, hfx⟩
        by_cases hid : x.id = m.id
        · right
          rw [← hfx]
          simp only [if_pos hid]
          have hmem : m ∈ s.members := List.mem_of_find?_eq_some hf
          simp only [updatedRow]
          exact List.mem_map.mpr ⟨m, hmem, rfl⟩
        · right
          rw [← hfx]
          simp only [if_neg hid]
          exact List.mem_map.mpr ⟨x, hx, rfl⟩

/-- Witness for the amended C1: after an anonymous update, the row
keeps the previously stored name Jane, which was stored before the
event. -/
theorem anonymous_event_writes_no_name_witness :
    (MemberRow.mk 1 "a@b.com" (some "Jane") true "active" 0 1).name = some ""
      ∨ (MemberRow.mk 1 "a@b.com" (some "Jane") true "active" 0 1).name ∈
        (Store.mk [MemberRow.mk 1 "a@b.com" (some "Jane") false "active" 0 0]
          [] [] 2).members.map MemberRow.name :=
  anonymous_event_writes_no_name
    (Store.mk [MemberRow.mk 1 "a@b.com" (some "Jane") false "active" 0 0]
      [] [] 2)
    "a@b.com" "Evil" "active" 1
    (Store.mk [MemberRow.mk 1 "a@b.com" (some "Jane") true "active" 0 1]
      [] [] 2)
    (by rfl)
    (MemberRow.mk 1 "a@b.com" (some "Jane") true "active" 0 1)
    (by decide)

/-- C2: the claim says every status containing "cancel"
(case-insensitively) is normalized to cancelled regardless of
surrounding text.  The first rung of the ladder wins instead: a status
containing both "active" and "cancel" is normalized to active. -/
theorem convertStatus_cancel_not_absolute :
    strContains ((lowerStr "Active - Cancelled")) "cancel" = true ∧
    convertStatus "Active - Cancelled" ≠ "cancelled" := by
  decide

/-- C2 (amended): every status containing "cancel" and none of the
first-rung keywords "succeed", "success", "active" is normalized to
cancelled. -/
theorem convertStatus_cancel_means_cancelled (z : String)
    (h1 : strContains (lowerStr z) "succeed" = false)
    (h2 : strContains (lowerStr z) "success" = false)
    (h3 : strContains (lowerStr z) "active" = false)
    (h4 : strContains (lowerStr z) "cancel" = true) :
    convertStatus z = "cancelled" := by
  simp [convertStatus, h1, h2, h3, h4]

/-- Witness for the amended C2 at the example of the spec. -/
theorem convertStatus_cancel_means_cancelled_witness :
    convertStatus "Refund - Cancelled" = "cancelled" :=
  convertStatus_cancel_means_cancelled "Refund - Cancelled"
    (by decide) (by decide) (by decide) (by decide)

/-- C4: the claim says a webhook with an empty normalized email is
answered with a non-success HTTP status.  The handler instead
acknowledges 200 OK while ProcessMember fails with the validation
error, exactly as for store errors. -/
theorem empty_email_not_surfaced_cex :
    (webhookHandler "secret0" store0
        (Request.mk "POST" "" "secret0"
          (some (MemberWebhook.mk " " "Jane" "Succeeded" "false"))) 0).1
      = HttpResponse.ok ∧
    ProcessMember (LogWebhook store0 " " (convertStatus "Succeeded")) " "
        "Jane" (convertAnonymous "false") (convertStatus "Succeeded") 0
      = Except.error "email is required" :=
  ⟨rfl, rfl⟩

/-- C4 (amended): a webhook whose email is empty after normalization
fails validation with "email is required" before any member-table or
history write, but the handler still answers 200 OK (the failure is
logged, not surfaced to the sender). -/
theorem empty_email_rejected_but_acked
    (secret : String) (s : Store) (r : Request) (w : MemberWebhook) (t : Nat)
    (hm : r.method = "POST")
    (ha : isAuthorized secret r = true)
    (hb : r.body = some w)
    (he : normalizeEmail w.email = "") :
    ProcessMember (LogWebhook s w.email (convertStatus w.status)) w.email
        w.name (convertAnonymous w.anonymous) (convertStatus w.status) t
      = Except.error "email is required" ∧
    (webhookHandler secret s r t).1 = HttpResponse.ok ∧
    (webhookHandler secret s r t).2.members = s.members ∧
    (webhookHandler secret s r t).2.history = s.history := by
  have herr := ProcessMember_eq_error
    (LogWebhook s w.email (convertStatus w.status)) w.email w.name
    (convertAnonymous w.anonymous) (convertStatus w.status) t he
  have herr2 := herr
  simp only [LogWebhook] at herr2
  refine ⟨herr, ?_, ?_, ?_⟩ <;>
    simp [webhookHandler, hm, ha, hb, herr2, LogWebhook]

/-- Witness for the amended C4. -/
theorem empty_email_rejected_but_acked_witness :
    ProcessMember (LogWebhook store0 "  " (convertStatus "Failed")) "  " "Bob"
        (convertAnonymous "no") (convertStatus "Failed") 7
      = Except.error "email is required" ∧
    (webhookHandler "tok" store0
        (Request.mk "POST" "Bearer tok" ""
          (some (MemberWebhook.mk "  " "Bob" "Failed" "no"))) 7).1
      = HttpResponse.ok ∧
    (webhookHandler "tok" store0
        (Request.mk "POST" "Bearer tok" ""
          (some (MemberWebhook.mk "  " "Bob" "Failed" "no"))) 7).2.members
      = store0.members ∧
    (webhookHandler "tok" store0
        (Request.mk "POST" "Bearer tok" ""
          (some (MemberWebhook.mk "  " "Bob" "Failed" "no"))) 7).2.history
      = store0.history :=
  empty_email_rejected_but_acked "tok" store0
    (Request.mk "POST" "Bearer tok" ""
      (some (MemberWebhook.mk "  " "Bob" "Failed" "no")))
    (MemberWebhook.mk "  " "Bob" "Failed" "no") 7
    rfl (by decide) rfl (by decide)

/-- C7: for an authorized, well-formed POST whose member processing
fails, the handler still answers 200 OK — a processing-layer failure
is never relayed to the webhook sender. -/
theorem processing_failure_still_ok
    (secret : String) (s : Store) (r : Request) (w : MemberWebhook) (t : Nat)
    (msg : String)
    (hm : r.method = "POST")
    (ha : isAuthorized secret r = true)
    (hb : r.body = some w)
    (herr : ProcessMember (LogWebhook s w.email (convertStatus w.status))
        w.email w.name (convertAnonymous w.anonymous) (convertStatus w.status) t
      = Except.error msg) :
    (webhookHandler secret s r t).1 = HttpResponse.ok := by
  simp [webhookHandler, hm, ha, hb, herr]

/-- Witness for C7 at a concrete failing event. -/
theorem processing_failure_still_ok_witness :
    (webhookHandler "k1" store0
        (Request.mk "POST" "" "k1"
          (some (MemberWebhook.mk "" "N" "Cancelled" "1"))) 3).1
      = HttpResponse.ok :=
  processing_failure_still_ok "k1" store0
    (Request.mk "POST" "" "k1" (some (MemberWebhook.mk "" "N" "Cancelled" "1")))
    (MemberWebhook.mk "" "N" "Cancelled" "1") 3 "email is required"
    rfl (by decide) rfl (by rfl)

/-- C8: a request is authorized exactly under the three credential
forms of the spec, and an unauthorized POST is answered 401 with the
store untouched. -/
theorem isAuthorized_iff (secret : String) (r : Request) :
    (isAuthorized secret r = true ↔ authorizedSpec secret r) ∧
    (r.method = "POST" → isAuthorized secret r = false →
      ∀ (s : Store) (t : Nat),
        webhookHandler secret s r t = (HttpResponse.unauthorized, s)) := by
  constructor
  · unfold isAuthorized authorizedSpec
    by_cases h1 : r.authorization = "Bearer " ++ secret
    · simp [h1]
    · have h1b : (r.authorization == "Bearer " ++ secret) = false := by
        simp [h1]
      simp only [h1b, Bool.false_eq_true, if_false, h1, false_or]
      by_cases h2 : startsWithChars "Basic ".data r.authorization.data = true
      · simp only [h2, if_true, true_and]
        cases hsp : splitN2Colon (basicPayload r.authorization) with
        | none => simp [hsp]
        | some up =>
            cases up with
            | mk u p =>
                simp only [hsp, Bool.or_eq_true, beq_iff_eq]
                constructor
                · intro hL
                  rcases hL with hB | hC
                  · exact Or.inl ⟨u, p, rfl, hB.symm⟩
                  · exact Or.inr hC
                · intro hR
                  rcases hR with ⟨u1, p1, heq, hup⟩ | hC
                  · simp only [Option.some.injEq, Prod.mk.injEq] at heq
                    obtain ⟨h4, h5⟩ := heq
                    subst h4
                    subst h5
                    exact Or.inl hup.symm
                  · exact Or.inr hC
      · simp [h2]
  · intro hm hf s t
    simp [webhookHandler, hm, hf]

/-- Witness for C8: a POST with no matching credential is answered
401 and the store is unchanged. -/
theorem isAuthorized_iff_witness :
    webhookHandler "k2" store0 (Request.mk "POST" "" "bad" none) 0
      = (HttpResponse.unauthorized, store0) :=
  (isAuthorized_iff "k2" (Request.mk "POST" "" "bad" none)).2
    rfl (by decide) store0 0

/-- C5: the substring ladder of convertStatus is evaluated
top-to-bottom with first match winning, and an entirely unmatched
status defaults to active. -/
theorem convertStatus_ladder (z : String) :
    ((strContains (lowerStr z) "succeed" || strContains (lowerStr z) "success" ||
        strContains (lowerStr z) "active") = true → convertStatus z = "active") ∧
    ((strContains (lowerStr z) "succeed" || strContains (lowerStr z) "success" ||
        strContains (lowerStr z) "active") = false →
      (strContains (lowerStr z) "fail" || strContains (lowerStr z) "cancel" ||
        strContains (lowerStr z) "refund") = true → convertStatus z = "cancelled") ∧
    ((strContains (lowerStr z) "succeed" || strContains (lowerStr z) "success" ||
        strContains (lowerStr z) "active") = false →
      (strContains (lowerStr z) "fail" || strContains (lowerStr z) "cancel" ||
        strContains (lowerStr z) "refund") = false →
      (strContains (lowerStr z) "suspend" || strContains (lowerStr z) "pend") = true →
      convertStatus z = "suspended") ∧
    ((strContains (lowerStr z) "succeed" || strContains (lowerStr z) "success" ||
        strContains (lowerStr z) "active") = false →
      (strContains (lowerStr z) "fail" || strContains (lowerStr z) "cancel" ||
        strContains (lowerStr z) "refund") = false →
      (strContains (lowerStr z) "suspend" || strContains (lowerStr z) "pend") = false →
      convertStatus z = "active") ∧
    convertStatus "Pending Review" = "suspended" ∧
    convertStatus "foobar" = "active" := by
  refine ⟨?_, ?_, ?_, ?_, by decide, by decide⟩
  · intro h1
    simp only [convertStatus]
    rw [h1]
    simp
  · intro h1 h2
    simp only [convertStatus]
    rw [h1, h2]
    simp
  · intro h1 h2 h3
    simp only [convertStatus]
    rw [h1, h2, h3]
    simp
  · intro h1 h2 h3
    simp only [convertStatus]
    rw [h1, h2, h3]
    simp

/-- Witness for the ladder at three concrete statuses, one per rung. -/
theorem convertStatus_ladder_witness :
    convertStatus "Payment Succeeded" = "active" ∧
    convertStatus "Refund" = "cancelled" ∧
    convertStatus "Suspended by admin" = "suspended" ∧
    convertStatus "xyz" = "active" :=
  ⟨(convertStatus_ladder "Payment Succeeded").1 (by decide),
   (convertStatus_ladder "Refund").2.1 (by decide) (by decide),
   (convertStatus_ladder "Suspended by admin").2.2.1 (by decide) (by decide)
     (by decide),
   (convertStatus_ladder "xyz").2.2.2.1 (by decide) (by decide) (by decide)⟩

/-- C9: the batch reconciler is idempotent: reconciling the store
against the snapshot that exactly matches its own email -> status
projection stages nothing for addition, activation or
deactivation. -/
theorem batch_reconcile_idempotent (s : Store) :
    reconcileSnapshot (GetAllMemberStatuses s) (activeProjection s)
      = ([], [], []) := by
  have hw := GetAllMemberStatuses_pairwise s
  unfold reconcileSnapshot activeProjection
  simp only [Prod.mk.injEq]
  refine ⟨?_, ?_, ?_⟩
  · rw [List.filter_eq_nil_iff]
    intro e he
    rcases List.mem_map.mp he with ⟨q, hq, rfl⟩
    have hq2 := List.mem_filter.mp hq
    have hfind : (GetAllMemberStatuses s).find? (fun p => p.1 == q.1)
        = some (q.1, q.2) := find?_of_pairwise_mem hw hq2.1
    simp [lookupStatus, hfind]
  · rw [List.filter_eq_nil_iff]
    intro e he
    rcases List.mem_map.mp he with ⟨q, hq, rfl⟩
    have hq2 := List.mem_filter.mp hq
    have hq3 : q.2 = "active" := by simpa using hq2.2
    have hfind : (GetAllMemberStatuses s).find? (fun p => p.1 == q.1)
        = some (q.1, q.2) := find?_of_pairwise_mem hw hq2.1
    simp [lookupStatus, hfind, hq3]
  · rw [List.map_eq_nil_iff]
    rw [List.filter_eq_nil_iff]
    intro p hp
    by_cases hact : (p.2 == "active") = true
    · have hmemf : p ∈ (GetAllMemberStatuses s).filter
          (fun p => p.2 == "active") := List.mem_filter.mpr ⟨hp, hact⟩
      have hmema : p.1 ∈ ((GetAllMemberStatuses s).filter
          (fun p => p.2 == "active")).map (fun p => p.1) :=
        List.mem_map.mpr ⟨p, hmemf, rfl⟩
      have hcont : (((GetAllMemberStatuses s).filter
          (fun p => p.2 == "active")).map (fun p => p.1)).contains p.1
            = true := List.elem_iff.mpr hmema
      rw [hact, hcont]
      simp
    · simp [hact]

/-- C10: every record of the member listing hides the name of an
anonymous member, and shows a name only when the member is not
anonymous and that name is stored in the members table. -/
theorem GetMembers_hides_anonymous_names
    (s : Store) (f : String) (lim : Nat) (v : MemberView)
    (hv : v ∈ GetMembers s f lim) :
    (v.is_anonymous = true → v.name = none) ∧
    (v.name.isSome = true →
      v.is_anonymous = false ∧ v.name ∈ s.members.map MemberRow.name) := by
  obtain ⟨m, hm, hvm⟩ : ∃ m, m ∈ s.members ∧ rowToView m = v := by
    unfold GetMembers at hv
    rcases List.mem_map.mp hv with ⟨m, hmem, hvm⟩
    have hm1 : m ∈ sortDesc (if f == "" then s.members
        else s.members.filter (fun x => x.status == f)) :=
      List.mem_of_mem_take hmem
    have hm2 := mem_sortDesc hm1
    by_cases hf : (f == "") = true
    · rw [if_pos hf] at hm2
      exact ⟨m, hm2, hvm⟩
    · rw [if_neg hf] at hm2
      exact ⟨m, List.mem_of_mem_filter hm2, hvm⟩
  subst hvm
  constructor
  · intro hanon
    simp only [rowToView] at hanon
    simp [rowToView, hanon]
  · intro hsome
    simp only [rowToView] at hsome
    by_cases hc : (!m.is_anonymous && m.name.isSome) = true
    · have hc2 : (!m.is_anonymous) = true ∧ m.name.isSome = true := by
        simpa using hc
      have hna : m.is_anonymous = false := by
        simpa using hc2.1
      constructor
      · simp [rowToView, hna]
      · simp only [rowToView, if_pos hc]
        exact List.mem_map.mpr ⟨m, hm, rfl⟩
    · exfalso
      rw [if_neg hc] at hsome
      cases hsome

/-- Witness for C10: the anonymous member Jane is listed without a
name, the visible member Bob with his stored name. -/
theorem GetMembers_hides_anonymous_names_witness :
    (MemberView.mk "a@x" "active" true none).name = none ∧
    ((MemberView.mk "b@x" "active" false (some "Bob")).is_anonymous = false ∧
      (MemberView.mk "b@x" "active" false (some "Bob")).name ∈
        (Store.mk
          [MemberRow.mk 1 "a@x" (some "Jane") true "active" 0 5,
           MemberRow.mk 2 "b@x" (some "Bob") false "active" 0 3]
          [] [] 3).members.map MemberRow.name) :=
  ⟨(GetMembers_hides_anonymous_names
      (Store.mk
        [MemberRow.mk 1 "a@x" (some "Jane") true "active" 0 5,
         MemberRow.mk 2 "b@x" (some "Bob") false "active" 0 3]
        [] [] 3)
      "" 100 (MemberView.mk "a@x" "active" true none) (by decide)).1
    (by decide),
   (GetMembers_hides_anonymous_names
      (Store.mk
        [MemberRow.mk 1 "a@x" (some "Jane") true "active" 0 5,
         MemberRow.mk 2 "b@x" (some "Bob") false "active" 0 3]
        [] [] 3)
      "" 100 (MemberView.mk "b@x" "active" false (some "Bob")) (by decide)).2
    (by decide)⟩

end Memberships
